import Mathlib

/-!
Verification of the genflow repository (pcap generation and replay) against
its specification.  The Go code under src/ is shallowly embedded in Lean:

* src/internal/pcapgen/trafficmodel.go : natural cubic spline and the
  diurnal `durationScalar` profile, with Go float64 arithmetic modelled by
  exact rational arithmetic;
* src/internal/pcapgen/pcapgen.go : validation of the generation config,
  the host-index-to-address maps, the flow-index-to-host-pair map, and the
  fixed-flow / random-mode packet emission loops (modelled as the list of
  emitted records: timestamp offset and serialized frame length);
* src/internal/replay/replay.go : the loop / packet-limit accounting of the
  replay engine (transmission and wall-clock scheduling abstracted away);
* src/cmd/genflux/main.go : the size-string parser.
-/

set_option maxRecDepth 1000000

namespace Genflow

/-! ## trafficmodel.go -/

/-- Truncation toward zero on rationals, used to model Go float-to-integer
truncation inside `math.Mod`. -/
def ratTrunc (q : ℚ) : Int := if q < 0 then -((-q).floor) else q.floor

/-- Model of Go `math.Mod(x, y)`: `x - y*trunc(x/y)` (the result keeps the
sign of the dividend). -/
def mathMod (x y : ℚ) : ℚ := x - y * (ratTrunc (x / y) : ℚ)

/-- Natural cubic spline coefficients, mirroring the Go `cubicSpline` struct
(fields `x, a, b, c, d`) from src/internal/pcapgen/trafficmodel.go. -/
structure CubicSpline where
  x : List ℚ
  a : List ℚ
  b : List ℚ
  c : List ℚ
  d : List ℚ

/-- Back-substitution loop of `newCubicSpline` (`for j := n-2; j >= 0; j--`):
`backSweep z mu n k` is the list `[c[n-1-k], ..., c[n-1]]` with `c[n-1] = 0`
and `c[j] = z[j] - mu[j]*c[j+1]`. -/
def backSweep (z mu : List ℚ) (n : Nat) : Nat → List ℚ
  | 0 => [0]
  | k+1 =>
    let prev := backSweep z mu n k
    let j := n - 1 - (k+1)
    (z.getD j 0 - mu.getD j 0 * prev.headD 0) :: prev

/-- Embedding of `newCubicSpline` (trafficmodel.go): the natural cubic spline
through the points `(x[i], y[i])`.  The imperative arrays become lists; the
forward-elimination loop (`l`, `mu`, `z`) becomes a fold that prepends the
newly computed `mu[i]` and `z[i]` (so the head of the accumulator is the
previous element), and the back-substitution loop becomes `backSweep`. -/
def newCubicSpline (x y : List ℚ) : CubicSpline :=
  let n := x.length
  let a := y
  let h := (List.range (n-1)).map fun i => x.getD (i+1) 0 - x.getD i 0
  let alpha := (List.range (n-1)).map fun i =>
    if 1 ≤ i then
      (3 / h.getD i 0) * (a.getD (i+1) 0 - a.getD i 0)
        - (3 / h.getD (i-1) 0) * (a.getD i 0 - a.getD (i-1) 0)
    else 0
  let muz :=
    (List.range' 1 (n-2)).foldl
      (fun (acc : List ℚ × List ℚ) i =>
        let l := 2 * (x.getD (i+1) 0 - x.getD (i-1) 0) - h.getD (i-1) 0 * acc.1.headD 0
        (h.getD i 0 / l :: acc.1,
         (alpha.getD i 0 - h.getD (i-1) 0 * acc.2.headD 0) / l :: acc.2))
      ([0], [0])
  let mu := muz.1.reverse ++ [0]
  let z := muz.2.reverse ++ [0]
  let c := backSweep z mu n (n-1)
  let b := (List.range (n-1)).map fun j =>
    (a.getD (j+1) 0 - a.getD j 0) / h.getD j 0
      - h.getD j 0 * (c.getD (j+1) 0 + 2 * c.getD j 0) / 3
  let d := (List.range (n-1)).map fun j =>
    (c.getD (j+1) 0 - c.getD j 0) / (3 * h.getD j 0)
  ⟨x, a, b, c, d⟩

/-- Embedding of `(*cubicSpline).eval` (trafficmodel.go): clamp outside the
knot range, otherwise locate the first interval `[x[i], x[i+1]]` containing
the query point (the Go linear scan with `break`, default index 0) and
evaluate that interval's cubic polynomial. -/
def CubicSpline.eval (s : CubicSpline) (t : ℚ) : ℚ :=
  let n := s.x.length
  if t ≤ s.x.getD 0 0 then s.a.getD 0 0
  else if s.x.getD (n-1) 0 ≤ t then s.a.getD (n-1) 0
  else
    let idx := (((List.range (n-1)).find? fun i =>
      decide (s.x.getD i 0 ≤ t ∧ t ≤ s.x.getD (i+1) 0)).getD 0)
    let dx := t - s.x.getD idx 0
    s.a.getD idx 0 + s.b.getD idx 0 * dx + s.c.getD idx 0 * dx * dx
      + s.d.getD idx 0 * dx * dx * dx

/-- The hand-authored 25-point weekend curve of `durationScalar`. -/
def weekendCurve : List ℚ :=
  [0, 0.4, 0, 0, 0, 0, 0, 0, 0.1, 0.2, 0.5, 0.45, 0.45, 0.5, 0.45, 0.45,
   0.45, 0.45, 0.5, 0.2, 0, 0, 0, 0, 0]

/-- The hand-authored 25-point weekday curve of `durationScalar`. -/
def weekdayCurve : List ℚ :=
  [0, 0.4, 0, 0, 0, 0, 0, 0.1, 0.2, 0.4, 0.95, 0.9, 0.9, 0.95, 0.9, 0.9,
   0.9, 0.9, 0.95, 0.4, 0.1, 0, 0, 0, 0]

/-- Embedding of `durationScalar` (trafficmodel.go): return 0 outside the
domain `[0, 24)`, rotate the hour by `+1 mod 24`, evaluate the natural cubic
spline through the 25 hourly knots of the selected curve, and return
`1 - spline(hour)` clamped to `[0, 1]`.  Go float64 arithmetic is modelled
by exact rational arithmetic. -/
def durationScalar (hour : ℚ) (weekend : Bool) : ℚ :=
  if hour < 0 ∨ 24 ≤ hour then 0
  else
    let hr := mathMod (hour + 1) 24
    let x := (List.range 25).map fun i => (i : ℚ)
    let y := if weekend then weekendCurve else weekdayCurve
    let spline := newCubicSpline x y
    let result := 1 - spline.eval hr
    if result < 0 then 0 else if 1 < result then 1 else result

/-- The clamped inversion `1 - v` restricted to `[0,1]`, exactly the clamp
used at the end of `durationScalar`; used to state the diurnal-profile
claims. -/
def clamp01 (q : ℚ) : ℚ := if q < 0 then 0 else if 1 < q then 1 else q

/-! ## pcapgen.go -/

/-- Embedding of `flowIndexToHosts` (pcapgen.go): indices below
`internalCount*externalCount` map to `(idx / externalCount,
idx % externalCount, internal-as-source)`; later indices map the same way
after subtracting that range, with external-as-source.  Go non-negative ints
are modelled as `Nat` (the subtraction is guarded by the branch). -/
def flowIndexToHosts (idx internalCount externalCount : Nat) : Nat × Nat × Bool :=
  let totalPair := internalCount * externalCount
  if idx < totalPair then (idx / externalCount, idx % externalCount, true)
  else ((idx - totalPair) / externalCount, (idx - totalPair) % externalCount, false)

/-- Embedding of `uniqueInternalIPv4` (pcapgen.go): the address
`192.168.(idx/256).(idx%256)` as a 4-tuple of octets; Go `byte(e)`
truncates to `e % 256`. -/
def uniqueInternalIPv4 (idx : Nat) : Nat × Nat × Nat × Nat :=
  (192, 168, idx / 256 % 256, idx % 256)

/-- Embedding of `uniqueExternalIPv4` (pcapgen.go): the address
`10.((idx>>16)&0xFF).((idx>>8)&0xFF).(idx&0xFF)` as a 4-tuple of octets;
`& 0xFF` is modelled as `% 256`. -/
def uniqueExternalIPv4 (idx : Nat) : Nat × Nat × Nat × Nat :=
  (10, idx >>> 16 % 256, idx >>> 8 % 256, idx % 256)

/-- One record written to the capture file: the timestamp offset (in
microseconds from the configured start) and the serialized frame length in
bytes.  The frame's byte content (MAC addresses, IPs, checksums, random
payload bytes) does not affect any claim and is abstracted away; its length
is kept exactly. -/
structure CaptureRecord where
  offsetUsec : Nat
  frameLen : Nat
deriving DecidableEq

/-- Length in bytes of the frame serialized by `createPacketForHosts` /
`createPacket` (pcapgen.go): Ethernet header (14) + IPv4 header with IHL 5
(20) + TCP header with DataOffset 7 (28) + the trailing payload.  This is
the gopacket serialization length of the layers constructed in the source
with FixLengths; the zero-payload frame length 62 matches the source's
per-packet budgeting constant 78 = 16 (record header) + 62. -/
def serializedFrameLen (payloadLen : Nat) : Nat := 14 + 20 + 28 + payloadLen

/-- The double loop of `createPcapFileFlows` over `flowIdx` and `p`
(pcapgen.go lines 190-218): the running counter `packetIdx` equals
`flowIdx*packetsPerFlow + p`; the timestamp offset is
`packetIdx*usecStep` microseconds; the last packet of the last flow carries
`payloadExtra` bytes of payload when `payloadExtra > 0`, every other packet
none. -/
def flowRecords (flowCount packetsPerFlow usecStep payloadExtra : Nat) :
    List CaptureRecord :=
  (List.range flowCount).flatMap fun flowIdx =>
    (List.range packetsPerFlow).map fun p =>
      let packetIdx := flowIdx * packetsPerFlow + p
      let lastPacket := flowIdx = flowCount - 1 ∧ p = packetsPerFlow - 1
      let payloadLen := if lastPacket ∧ 0 < payloadExtra then payloadExtra else 0
      ⟨packetIdx * usecStep, serializedFrameLen payloadLen⟩

/-- Embedding of `createPcapFileFlows` (pcapgen.go): capacity check, byte
budgeting against the base size `24 + totalPackets*78`, timestamp step
computation, and the emission loop.  File-system and logging effects are
dropped; the result is the list of emitted records (or the configuration
error).  Go `int` is modelled as `Int`; durations are in nanoseconds as in
`time.Duration`.  With `totalPackets = 0` the Go code would divide by zero;
that case is unreachable from `Generate` (it requires `FlowCount > 0` and
`PacketsPerFlow > 0`) and the model returns step 1 there. -/
def createPcapFileFlows (flowCount packetsPerFlow internalCount externalCount : Nat)
    (exactBytes maxSizeBytes durationNs : Int) : Except String (List CaptureRecord) :=
  if 2 * internalCount * externalCount < flowCount then
    Except.error "flow-count exceeds capacity"
  else
    let totalPackets := flowCount * packetsPerFlow
    let baseSize : Int := 24 + (totalPackets : Int) * 78
    let budget : Except String Int :=
      if 0 < exactBytes then
        if exactBytes < baseSize then
          Except.error "exact-size is below the base size for the requested flows"
        else Except.ok (exactBytes - baseSize)
      else if 0 < maxSizeBytes ∧ maxSizeBytes < baseSize then
        Except.error "estimated size exceeds max-size"
      else Except.ok 0
    match budget with
    | Except.error e => Except.error e
    | Except.ok payloadExtra =>
      let duration := if durationNs ≤ 0 then (10000000000 : Int) else durationNs
      let totalUsec := if duration / 1000 ≤ 0 then 1 else duration / 1000
      let usecStep :=
        if totalUsec / (totalPackets : Int) < 1 then 1 else totalUsec / (totalPackets : Int)
      Except.ok (flowRecords flowCount packetsPerFlow usecStep.toNat payloadExtra.toNat)

/-- Byte length of the persisted capture file for a list of records: 24-byte
pcap global header plus, per record, the 16-byte record header and the frame
bytes.  These are the container constants (pcapgo classic pcap format) that
the source's budget arithmetic (`24`, `78 = 16 + 62`) assumes. -/
def pcapFileSize (recs : List CaptureRecord) : Nat :=
  24 + (recs.map fun r => 16 + r.frameLen).sum

/-- One advance of the random-mode timestamp cursor of `createPcapFile`
(pcapgen.go): add the drawn inter-packet gap to the sub-second offset and
carry one second into the second counter when the offset reaches 10^6
microseconds. -/
def nextCursor (sec off delta : Nat) : Nat × Nat :=
  let off2 := off + delta
  if 1000000 ≤ off2 then (sec + 1, off2 - 1000000) else (sec, off2)

/-- The sequence of timestamps (in microseconds since the epoch, i.e.
`startSec*10^6 + offsetUsec`, the value `time.Unix(startSec,
offsetUsec*1000)` denotes) that the random-mode loop of `createPcapFile`
assigns to successive packets, given the sequence of drawn inter-packet
gaps.  Each draw `randSrc.Intn(interPacket+1)` is a non-negative number of
microseconds; the list `deltas` ranges over all possible draw sequences. -/
def cursorTimestamps (sec off : Nat) : List Nat → List Nat
  | [] => []
  | delta :: deltas =>
    (sec * 1000000 + off) ::
      cursorTimestamps (nextCursor sec off delta).1 (nextCursor sec off delta).2 deltas

/-- The generation configuration fields consulted by the validation code in
`Generate` (pcapgen.go lines 59-99).  `OutDir`, `StartTime` and `Seed` are
not validated and are omitted.  Go `int`/`time.Duration` are modelled as
`Int` (durations in nanoseconds); an unset output file is the empty
string. -/
structure GenConfig where
  internalHosts : Int
  externalHosts : Int
  minDuration : Int
  maxDuration : Int
  fileCount : Int
  outFile : String
  maxSizeBytes : Int
  exactBytes : Int
  flowCount : Int
  packetsPerFlow : Int

/-- Embedding of the validation sequence at the top of `Generate`
(pcapgen.go lines 59-99): the chain of configuration checks, in source
order, including the capacity checks run when `FlowCount > 0`.  Returns the
first error, or `none` when the configuration is accepted. -/
def validateGenerate (c : GenConfig) : Option String :=
  if c.internalHosts ≤ 0 ∨ c.externalHosts ≤ 0 then
    some "internal-hosts and external-hosts must be > 0"
  else if c.fileCount ≤ 0 then some "file-count must be > 0"
  else if c.outFile ≠ "" ∧ c.fileCount ≠ 1 then some "out-file requires file-count=1"
  else if 0 < c.exactBytes ∧ c.fileCount ≠ 1 then some "exact-size requires file-count=1"
  else if c.minDuration ≤ 0 ∨ c.maxDuration ≤ 0 ∨ c.maxDuration < c.minDuration then
    some "invalid duration range"
  else if c.exactBytes ≤ 0 then some "exact-size must be > 0"
  else if c.flowCount < 0 then some "flow-count must be >= 0"
  else if 0 < c.flowCount ∧ c.packetsPerFlow ≤ 0 then
    some "packets-per-flow must be > 0 when flow-count is set"
  else if 0 < c.flowCount ∧ 65536 < c.internalHosts then
    some "internal-hosts exceeds 192.168.0.0/16 capacity (65536)"
  else if 0 < c.flowCount ∧ 16777216 < c.externalHosts then
    some "external-hosts exceeds 10.0.0.0/8 capacity (16777216)"
  else none

/-! ## replay.go -/

/-- Embedding of the packet loop of `replayOnce` (replay.go lines 109-151)
restricted to the packet accounting: `toRead` packets remain in the capture
file, `totalPackets` is the per-loop sent counter, `remaining` is the shared
cross-loop budget (`nil` when no limit).  Per packet read: stop when the
budget is 0, stop when the per-loop counter has reached the budget,
otherwise transmit, increment the counter and decrement the budget.
Returns the per-loop sent count and the budget left.  Scheduling, I/O and
statistics do not affect the counts and are dropped. -/
def replayOnce : Nat → Nat → Option Nat → Nat × Option Nat
  | 0, totalPackets, remaining => (totalPackets, remaining)
  | toRead + 1, totalPackets, none => replayOnce toRead (totalPackets + 1) none
  | toRead + 1, totalPackets, some r =>
    if r = 0 then (totalPackets, some r)
    else if r ≤ totalPackets then (totalPackets, some r)
    else replayOnce toRead (totalPackets + 1) (some (r - 1))

/-- Embedding of the loop driver in `Replay` (replay.go lines 67-84) for a
positive loop count: run `replayOnce` over the same capture `loops` times,
threading the shared budget through, and total the sent counts. -/
def replayLoops : Nat → Nat → Option Nat → Nat
  | 0, _, _ => 0
  | loops + 1, captureLen, remaining =>
    let res := replayOnce captureLen 0 remaining
    res.1 + replayLoops loops captureLen res.2

/-- Total packets transmitted by `Replay` (replay.go) with loop count
`loopCount > 0`, packet limit `limit` (0 = unbounded) and a capture file of
`captureLen` packets: the budget pointer is `nil` exactly when
`limit = 0`. -/
def replayTotalSent (loopCount limit captureLen : Nat) : Nat :=
  replayLoops loopCount captureLen (if 0 < limit then some limit else none)

/-! ## main.go -/

/-- Strip trailing and leading whitespace, modelling `strings.TrimSpace`
(the inputs of interest contain at most ASCII whitespace). -/
def trimSpace (s : List Char) : List Char :=
  ((s.dropWhile Char.isWhitespace).reverse.dropWhile Char.isWhitespace).reverse

/-- Model of `strings.TrimSuffix`: remove `suffix` once if present. -/
def trimSuffix (s suffix : List Char) : List Char :=
  if suffix.isSuffixOf s then s.take (s.length - suffix.length) else s

/-- The unit-suffix switch of `parseSize` (main.go lines 159-188), in source
case order: returns the 1024-based multiplier and the input with the suffix
removed (for the two-case branches, Go trims the long suffix and then the
short one, both modelled here). -/
def splitUnit (v : List Char) : Int × List Char :=
  if ("tib".data).isSuffixOf v then (1099511627776, trimSuffix v ("tib".data))
  else if ("tb".data).isSuffixOf v ∨ ("t".data).isSuffixOf v then
    (1099511627776, trimSuffix (trimSuffix v ("tb".data)) ("t".data))
  else if ("gib".data).isSuffixOf v then (1073741824, trimSuffix v ("gib".data))
  else if ("gb".data).isSuffixOf v ∨ ("g".data).isSuffixOf v then
    (1073741824, trimSuffix (trimSuffix v ("gb".data)) ("g".data))
  else if ("mib".data).isSuffixOf v then (1048576, trimSuffix v ("mib".data))
  else if ("mb".data).isSuffixOf v ∨ ("m".data).isSuffixOf v then
    (1048576, trimSuffix (trimSuffix v ("mb".data)) ("m".data))
  else if ("kib".data).isSuffixOf v then (1024, trimSuffix v ("kib".data))
  else if ("kb".data).isSuffixOf v ∨ ("k".data).isSuffixOf v then
    (1024, trimSuffix (trimSuffix v ("kb".data)) ("k".data))
  else if ("b".data).isSuffixOf v then (1, trimSuffix v ("b".data))
  else (1, v)

/-- Numeric value of a digit string (most significant first). -/
def digitsToNat (s : List Char) : Nat :=
  s.foldl (fun acc ch => acc * 10 + (ch.toNat - 48)) 0

/-- Decimal-exact model of `strconv.ParseFloat` restricted to plain decimal
notation (optional sign, integer digits, optional fractional digits — the
shapes the size grammar admits): the exact rational value, or `none` on a
malformed number.  Exponents, hex floats and inf/NaN forms are outside the
modelled grammar. -/
def parseUnsigned (s : List Char) : Option ℚ :=
  let intPart := s.takeWhile Char.isDigit
  let rest := s.dropWhile Char.isDigit
  match rest with
  | [] => if intPart = [] then none else some (digitsToNat intPart : ℚ)
  | '.' :: frac =>
    if frac.all Char.isDigit ∧ (intPart ≠ [] ∨ frac ≠ []) then
      some ((digitsToNat intPart : ℚ) + (digitsToNat frac : ℚ) / (10 : ℚ) ^ frac.length)
    else none
  | _ => none

/-- Signed decimal parse (see `parseUnsigned`). -/
def parseDec (s : List Char) : Option ℚ :=
  match s with
  | '+' :: rest => parseUnsigned rest
  | '-' :: rest => (parseUnsigned rest).map fun q => -q
  | _ => parseUnsigned s

/-- Model of `math.Round`: round half away from zero. -/
def roundHalfAway (q : ℚ) : Int :=
  if 0 ≤ q then (q + 1/2).floor else -(((-q) + 1/2).floor)

/-- The local `v` of `parseSize` before suffix splitting:
`strings.TrimSpace(strings.ToLower(value))`. -/
def lowered (value : String) : List Char :=
  trimSpace (value.data.map Char.toLower)

/-- The numeric substring `parseSize` hands to `strconv.ParseFloat`: the
lower-cased, trimmed input with the unit suffix removed and trimmed again. -/
def sizeNumericPart (value : String) : List Char :=
  trimSpace (splitUnit (lowered value)).2

/-- Embedding of `parseSize` (main.go lines 153-203): lower-case and trim,
split off the unit suffix, trim and parse the number, reject empty or
non-positive values, and round `number * multiplier` to the nearest byte.
Errors are collapsed to `none`; the Go locals `v`, `mult` are the named
definitions `lowered`/`sizeNumericPart`/`splitUnit` above. -/
def parseSize (value : String) : Option Int :=
  if lowered value = [] then none
  else if sizeNumericPart value = [] then none
  else
    match parseDec (sizeNumericPart value) with
    | none => none
    | some num =>
      if num ≤ 0 then none
      else some (roundHalfAway (num * ((splitUnit (lowered value)).1 : ℚ)))

/-! ## Helper lemmas -/

/-- Flattening a rectangular double iteration over `List.range`: the nested
loop visiting `f (i*b + j)` in row-major order equals the single loop over
`List.range (a*b)`. -/
theorem range_flatMap_map {α : Type _} (a b : Nat) (f : Nat → α) :
    ((List.range a).flatMap fun i => (List.range b).map fun j => f (i * b + j))
      = (List.range (a * b)).map f := by
  induction a with
  | zero => simp
  | succ n ih =>
    rw [List.range_succ, List.flatMap_append, ih, Nat.succ_mul, List.range_add,
      List.map_append, List.map_map]
    simp [Function.comp]

/-- Inside the rectangle `fl < fc`, `p < ppf`, the pair is the last one of
the nested loop exactly when its flattened index is the last index. -/
theorem last_pair_iff_last_index (fc ppf fl p : Nat) (hfl : fl < fc) (hp : p < ppf) :
    (fl = fc - 1 ∧ p = ppf - 1) ↔ fl * ppf + p = fc * ppf - 1 := by
  obtain ⟨m, rfl⟩ : ∃ m, fc = m + 1 := ⟨fc - 1, by omega⟩
  obtain ⟨q, rfl⟩ : ∃ q, ppf = q + 1 := ⟨ppf - 1, by omega⟩
  simp only [Nat.add_sub_cancel]
  have e1 : (m + 1) * (q + 1) = m * (q + 1) + (q + 1) := by ring
  constructor
  · rintro ⟨rfl, rfl⟩
    omega
  · intro h
    have hfl1 : fl = m := by
      by_contra hne
      have e4 : (fl + 1) * (q + 1) ≤ m * (q + 1) :=
        Nat.mul_le_mul_right (q + 1) (by omega)
      have e5 : (fl + 1) * (q + 1) = fl * (q + 1) + (q + 1) := by ring
      omega
    subst hfl1
    exact ⟨rfl, by omega⟩

/-- The sum of the per-packet byte counts when every packet contributes `c`
bytes and the last packet contributes `pe` extra bytes. -/
theorem sum_range_const_add_last (N pe c : Nat) (hN : 0 < N) :
    ((List.range N).map fun k => c + (if k = N - 1 ∧ 0 < pe then pe else 0)).sum
      = N * c + pe := by
  obtain ⟨M, rfl⟩ : ∃ M, N = M + 1 := ⟨N - 1, by omega⟩
  rw [List.range_succ, List.map_append, List.sum_append]
  have h1 : ((List.range M).map fun k => c + (if k = M + 1 - 1 ∧ 0 < pe then pe else 0))
      = (List.range M).map fun _ => c := by
    apply List.map_congr_left
    intro k hk
    have hk2 := List.mem_range.1 hk
    rw [if_neg (by omega), Nat.add_zero]
  rw [h1, List.map_const', List.sum_replicate, smul_eq_mul, List.length_range]
  have e1 : (M + 1) * c = M * c + c := by ring
  by_cases hpe : 0 < pe
  · rw [List.map_singleton, List.sum_singleton, if_pos ⟨rfl, hpe⟩]
    omega
  · rw [List.map_singleton, List.sum_singleton, if_neg (by omega)]
    omega

/-! ## C2 -/

/--
C2: the claim says that with `loop=3`, `limit=10` and a capture of at least
10 packets the engine transmits exactly 10 packets in total.  The code does
not: `replayOnce` also returns as soon as the per-loop counter
`totalPackets` reaches the shared remaining budget (replay.go line 125), so
on a 10-packet capture the three loop iterations transmit 5, 3 and 1
packets — 9 in total, with a budget of 1 left over.  This theorem evaluates
the embedded engine at that input.
-/
theorem replay_loop3_limit10_sends_nine :
    replayOnce 10 0 (some 10) = (5, some 5)
  ∧ replayLoops 3 10 (some 10) = 9
  ∧ replayTotalSent 3 10 10 = 9
  ∧ replayTotalSent 3 10 10 ≠ 10 := by decide

/-! ## C3 -/

/--
C3: for `I > 0` internal hosts and `E > 0` external hosts, `flowIndexToHosts`
restricted to indices `0 .. 2*I*E - 1` is a bijection onto the triples
(internal index `< I`, external index `< E`, direction): it is injective,
every triple is hit, and every image lies in range.
-/
theorem flowIndexToHosts_bijective (I E : Nat) (hI : 0 < I) (hE : 0 < E) :
    (∀ k1, k1 < 2 * I * E → ∀ k2, k2 < 2 * I * E →
        flowIndexToHosts k1 I E = flowIndexToHosts k2 I E → k1 = k2)
  ∧ (∀ i, i < I → ∀ e, e < E → ∀ d : Bool,
        ∃ k, k < 2 * I * E ∧ flowIndexToHosts k I E = (i, e, d))
  ∧ (∀ k, k < 2 * I * E →
        (flowIndexToHosts k I E).1 < I ∧ (flowIndexToHosts k I E).2.1 < E) := by
  have h2IE : 2 * I * E = I * E + I * E := by ring
  refine ⟨?_, ?_, ?_⟩
  · intro k1 h1 k2 h2 heq
    unfold flowIndexToHosts at heq
    by_cases c1 : k1 < I * E <;> by_cases c2 : k2 < I * E
    · rw [if_pos c1, if_pos c2] at heq
      simp only [Prod.mk.injEq] at heq
      obtain ⟨hdiv, hmod, -⟩ := heq
      have d1 := Nat.div_add_mod k1 E
      have d2 := Nat.div_add_mod k2 E
      rw [hdiv, hmod] at d1
      omega
    · rw [if_pos c1, if_neg c2] at heq
      simp at heq
    · rw [if_neg c1, if_pos c2] at heq
      simp at heq
    · rw [if_neg c1, if_neg c2] at heq
      simp only [Prod.mk.injEq] at heq
      obtain ⟨hdiv, hmod, -⟩ := heq
      have d1 := Nat.div_add_mod (k1 - I * E) E
      have d2 := Nat.div_add_mod (k2 - I * E) E
      rw [hdiv, hmod] at d1
      omega
  · intro i hi e he d
    have hbound : i * E + e < I * E := by
      have h3 : (i + 1) * E ≤ I * E := Nat.mul_le_mul_right E (by omega)
      have h4 : i * E + E = (i + 1) * E := by ring
      omega
    have hdiv : (i * E + e) / E = i := by
      rw [show i * E + e = E * i + e by ring, Nat.mul_add_div hE, Nat.div_eq_of_lt he,
        Nat.add_zero]
    have hmod : (i * E + e) % E = e := by
      rw [show i * E + e = E * i + e by ring, Nat.mul_add_mod, Nat.mod_eq_of_lt he]
    cases d
    · refine ⟨I * E + (i * E + e), by omega, ?_⟩
      unfold flowIndexToHosts
      rw [if_neg (by omega), Nat.add_sub_cancel_left, hdiv, hmod]
    · refine ⟨i * E + e, by omega, ?_⟩
      unfold flowIndexToHosts
      rw [if_pos hbound, hdiv, hmod]
  · intro k hk
    unfold flowIndexToHosts
    by_cases c : k < I * E
    · rw [if_pos c]
      exact ⟨(Nat.div_lt_iff_lt_mul hE).2 (by omega), Nat.mod_lt _ hE⟩
    · rw [if_neg c]
      have hk2 : k - I * E < I * E := by omega
      exact ⟨(Nat.div_lt_iff_lt_mul hE).2 (by omega), Nat.mod_lt _ hE⟩

/-- Witness for C3: the bijection property instantiated at `I = 2`,
`E = 3`. -/
theorem flowIndexToHosts_bijective_witness :
    (∀ k1, k1 < 2 * 2 * 3 → ∀ k2, k2 < 2 * 2 * 3 →
        flowIndexToHosts k1 2 3 = flowIndexToHosts k2 2 3 → k1 = k2)
  ∧ (∀ i, i < 2 → ∀ e, e < 3 → ∀ d : Bool,
        ∃ k, k < 2 * 2 * 3 ∧ flowIndexToHosts k 2 3 = (i, e, d))
  ∧ (∀ k, k < 2 * 2 * 3 →
        (flowIndexToHosts k 2 3).1 < 2 ∧ (flowIndexToHosts k 2 3).2.1 < 3) :=
  flowIndexToHosts_bijective 2 3 (by decide) (by decide)

/-! ## C4 -/

/--
C4: within capacity, the index-to-address maps of both pools are injective —
`uniqueInternalIPv4` on `0 .. N-1` for every `N ≤ 65536` (192.168.0.0/16)
and `uniqueExternalIPv4` on `0 .. N-1` for every `N ≤ 16777216` (10.0.0.0/8)
— so the generated network addresses of one pool are pairwise distinct.
-/
theorem uniqueIPv4_injective_on_capacity (Ni Ne : Nat)
    (hNi : Ni ≤ 65536) (hNe : Ne ≤ 16777216) :
    (∀ i, i < Ni → ∀ j, j < Ni → uniqueInternalIPv4 i = uniqueInternalIPv4 j → i = j)
  ∧ (∀ i, i < Ne → ∀ j, j < Ne → uniqueExternalIPv4 i = uniqueExternalIPv4 j → i = j) := by
  constructor
  · intro i hi j hj h
    simp only [uniqueInternalIPv4, Prod.mk.injEq, true_and] at h
    omega
  · intro i hi j hj h
    simp only [uniqueExternalIPv4, Prod.mk.injEq, true_and,
      Nat.shiftRight_eq_div_pow] at h
    norm_num at h
    omega

/-- Witness for C4: injectivity instantiated at the full capacities
`Ni = 65536`, `Ne = 16777216`. -/
theorem uniqueIPv4_injective_on_capacity_witness :
    (∀ i, i < 65536 → ∀ j, j < 65536 →
        uniqueInternalIPv4 i = uniqueInternalIPv4 j → i = j)
  ∧ (∀ i, i < 16777216 → ∀ j, j < 16777216 →
        uniqueExternalIPv4 i = uniqueExternalIPv4 j → i = j) :=
  uniqueIPv4_injective_on_capacity 65536 16777216 (by decide) (by decide)

/-! ## C6 and C7: Generate validation -/

/-- A generation configuration with an explicit output file, a positive
exact size and file count 1 (all other fields as in `DefaultConfig`). -/
def outFileExactCfg : GenConfig :=
  { internalHosts := 50, externalHosts := 500, minDuration := 60000000000,
    maxDuration := 120000000000, fileCount := 1, outFile := "capture.pcap",
    maxSizeBytes := 300000000, exactBytes := 1000000, flowCount := 0,
    packetsPerFlow := 2 }

/--
C6 counterexample: the claim says a configuration combining an explicit
output file with `ExactBytes > 0` (and `FileCount = 1`) is rejected as a
configuration error.  It is not: `Generate`'s validation accepts
`outFileExactCfg`, which has a non-empty output file, a positive exact size
and file count 1.  (Indeed the code requires `ExactBytes > 0`
unconditionally, so an out-file run without exact-size would be the one to
fail.)
-/
theorem outFile_with_exact_size_accepted :
    outFileExactCfg.outFile ≠ "" ∧ 0 < outFileExactCfg.exactBytes
  ∧ outFileExactCfg.fileCount = 1
  ∧ validateGenerate outFileExactCfg = none := by decide

/--
C6 amended: out-file and exact-size are each mutually exclusive only with
multi-file generation (`FileCount ≠ 1`), not with each other: every
configuration with a non-empty output file, `ExactBytes > 0`,
`FileCount = 1` and all remaining checks satisfied passes validation.
-/
theorem validateGenerate_accepts_outFile_with_exact (c : GenConfig)
    (h1 : 0 < c.internalHosts) (h2 : 0 < c.externalHosts)
    (h3 : c.fileCount = 1) (h4 : 0 < c.minDuration)
    (h5 : c.minDuration ≤ c.maxDuration) (h6 : 0 < c.exactBytes)
    (h7 : 0 ≤ c.flowCount)
    (h8 : 0 < c.flowCount → 0 < c.packetsPerFlow)
    (h9 : 0 < c.flowCount → c.internalHosts ≤ 65536)
    (h10 : 0 < c.flowCount → c.externalHosts ≤ 16777216) :
    validateGenerate c = none := by
  unfold validateGenerate
  rw [if_neg (by omega), if_neg (by omega),
    if_neg (fun hc => hc.2 h3), if_neg (fun hc => hc.2 h3),
    if_neg (by omega), if_neg (by omega), if_neg (by omega),
    if_neg (by intro hc; have := h8 hc.1; omega),
    if_neg (by intro hc; have := h9 hc.1; omega),
    if_neg (by intro hc; have := h10 hc.1; omega)]

/-- Witness for the amended C6: the acceptance theorem applied to the
concrete configuration `outFileExactCfg`. -/
theorem validateGenerate_accepts_outFile_with_exact_witness :
    validateGenerate outFileExactCfg = none :=
  validateGenerate_accepts_outFile_with_exact outFileExactCfg (by decide) (by decide)
    (by decide) (by decide) (by decide) (by decide) (by decide) (by decide) (by decide)
    (by decide)

/-- A generation configuration with no exact target size (`ExactBytes = 0`)
and a positive max-size — the spec's size-bounded random mode. -/
def maxSizeOnlyCfg : GenConfig :=
  { internalHosts := 50, externalHosts := 500, minDuration := 60000000000,
    maxDuration := 120000000000, fileCount := 1, outFile := "",
    maxSizeBytes := 300000000, exactBytes := 0, flowCount := 0,
    packetsPerFlow := 2 }

/--
C7: the claim (with the spec) says that with `ExactBytes = 0` and a positive
max-size, generation succeeds and the max-size ceiling bounds the packet
count.  The code instead rejects every configuration with
`ExactBytes <= 0` ("exact-size must be > 0", pcapgen.go line 74), making
the max-size path of `createPcapFile` unreachable from `Generate`; this
theorem evaluates the validation at such a configuration.
-/
theorem maxSize_only_config_rejected :
    0 < maxSizeOnlyCfg.maxSizeBytes ∧ maxSizeOnlyCfg.exactBytes = 0
  ∧ validateGenerate maxSizeOnlyCfg = some "exact-size must be > 0" := by decide

/-! ## C9 and C10: diurnal profile -/

/--
C9 amended: for every integer knot hour `h` in `0..23` (the contract domain
`[0,24)`; the claim's range `0..24` fails at `h = 24`, see the
counterexample) and each weekend flag, `durationScalar` returns exactly
`1 - curve[(h+1) mod 24]` clamped to `[0,1]`, where `curve` is the matching
hand-authored weekday/weekend curve — the `+1 mod 24` being the input
rotation applied before spline evaluation.
-/
theorem durationScalar_knot_hours (h : Nat) (hh : h < 24) (w : Bool) :
    durationScalar (h : ℚ) w
      = clamp01 (1 - (if w then weekendCurve else weekdayCurve).getD ((h + 1) % 24) 0) := by
  revert w
  revert h
  with_unfolding_all decide

/-- Witness for C9: the knot-hour identity at `h = 9` on the weekday curve
(value `1 - 0.95 = 1/20`). -/
theorem durationScalar_knot_hours_witness :
    durationScalar ((9 : Nat) : ℚ) false
      = clamp01 (1 - (if false then weekendCurve else weekdayCurve).getD ((9 + 1) % 24) 0) :=
  durationScalar_knot_hours 9 (by decide) false

/--
C9 counterexample: at the 25th knot hour `h = 24` the claim fails — the
domain guard of `durationScalar` returns 0 there, while the rotated curve
lookup `1 - curve[(24+1) mod 24] = 1 - 0.4` is `3/5`.
-/
theorem durationScalar_hour24_breaks_knot_claim :
    durationScalar ((24 : Nat) : ℚ) true
      ≠ clamp01 (1 - (if true then weekendCurve else weekdayCurve).getD ((24 + 1) % 24) 0) := by
  with_unfolding_all decide

/--
C10: for every rational hour and each weekend flag the result of
`durationScalar` lies in `[0,1]`, and outside the contract domain (hour
negative or at least 24) it is exactly 0 — the code's domain guard, not a
failure.
-/
theorem durationScalar_bounds (hour : ℚ) (weekend : Bool) :
    0 ≤ durationScalar hour weekend ∧ durationScalar hour weekend ≤ 1
  ∧ ((hour < 0 ∨ 24 ≤ hour) → durationScalar hour weekend = 0) := by
  have hc : ∀ q : ℚ, 0 ≤ clamp01 q ∧ clamp01 q ≤ 1 := by
    intro q
    unfold clamp01
    split_ifs with hq1 hq2
    · exact ⟨le_refl 0, by norm_num⟩
    · exact ⟨by norm_num, le_refl 1⟩
    · exact ⟨by linarith, by linarith⟩
  unfold durationScalar
  by_cases hdom : hour < 0 ∨ 24 ≤ hour
  · rw [if_pos hdom]
    exact ⟨le_refl 0, by norm_num, fun _ => rfl⟩
  · rw [if_neg hdom]
    have h := hc (1 - (newCubicSpline ((List.range 25).map fun i => (i : ℚ))
      (if weekend then weekendCurve else weekdayCurve)).eval (mathMod (hour + 1) 24))
    exact ⟨h.1, h.2, fun hx => absurd hx hdom⟩

/-- Witness for C10: the bounds and the out-of-domain zero at `hour = 25`
(weekend). -/
theorem durationScalar_bounds_witness :
    0 ≤ durationScalar 25 true ∧ durationScalar 25 true ≤ 1
  ∧ (((25 : ℚ) < 0 ∨ (24 : ℚ) ≤ 25) → durationScalar 25 true = 0) :=
  durationScalar_bounds 25 true

/-! ## C5: size-string parsing -/

/-- Evaluation lemma for `parseSize` on a well-formed positive input: if the
lowered input is non-empty, the unit split yields `(mult, rest)`, the
trimmed rest parses to the positive number `q`, then the result is
`round(q * mult)`. -/
theorem parseSize_eval (value : String) (mult : Int) (rest : List Char) (q : ℚ)
    (h1 : ¬ lowered value = []) (h2 : splitUnit (lowered value) = (mult, rest))
    (h3 : ¬ trimSpace rest = []) (h4 : parseDec (trimSpace rest) = some q)
    (h5 : ¬ q ≤ 0) :
    parseSize value = some (roundHalfAway (q * (mult : ℚ))) := by
  unfold parseSize sizeNumericPart
  rw [h2]
  dsimp only
  rw [if_neg h1, if_neg h3, h4]
  dsimp only
  rw [if_neg h5]

/--
C5: the size-string parser maps `"1g"` to 1073741824, `"0.5gb"` to
536870912 and `"200m"` to 209715200 (1024-based units, fractional numbers,
rounding to the nearest byte, case-insensitive), returns an error for a
bare non-numeric string (here `"flux"`, collapsed to `none`), and returns
an error whenever the parsed numeric value is non-positive.
-/
theorem parseSize_spec :
    parseSize "1g" = some 1073741824
  ∧ parseSize "0.5gb" = some 536870912
  ∧ parseSize "200m" = some 209715200
  ∧ parseSize "flux" = none
  ∧ (∀ value : String, ∀ q : ℚ,
      parseDec (sizeNumericPart value) = some q → q ≤ 0 → parseSize value = none) := by
  refine ⟨?_, ?_, ?_, ?_, ?_⟩
  · rw [parseSize_eval "1g" 1073741824 ("1".data) 1 (by with_unfolding_all decide)
      (by with_unfolding_all decide) (by with_unfolding_all decide)
      (by with_unfolding_all decide) (by norm_num)]
    exact congrArg some (by with_unfolding_all decide)
  · rw [parseSize_eval "0.5gb" 1073741824 ("0.5".data) (1/2) (by with_unfolding_all decide)
      (by with_unfolding_all decide) (by with_unfolding_all decide)
      (by with_unfolding_all decide) (by norm_num)]
    exact congrArg some (by with_unfolding_all decide)
  · rw [parseSize_eval "200m" 1048576 ("200".data) 200 (by with_unfolding_all decide)
      (by with_unfolding_all decide) (by with_unfolding_all decide)
      (by with_unfolding_all decide) (by norm_num)]
    exact congrArg some (by with_unfolding_all decide)
  · with_unfolding_all decide
  · intro value q hq hq0
    unfold parseSize
    by_cases hv : lowered value = []
    · rw [if_pos hv]
    · rw [if_neg hv]
      by_cases hr : sizeNumericPart value = []
      · rw [if_pos hr]
      · rw [if_neg hr, hq]
        dsimp only
        rw [if_pos hq0]

/-- Witness for C5: the non-positive rejection applied at the concrete input
`"0.0k"`, whose numeric part parses to 0. -/
theorem parseSize_spec_witness : parseSize "0.0k" = none :=
  parseSize_spec.2.2.2.2 "0.0k" 0 (by with_unfolding_all decide) (by norm_num)

/-! ## C1 and C8: fixed-flow emission and timestamps -/

/-- The nested flow/packet loop flattened to a single loop over the global
packet index: inside the rectangle, being the last packet of the last flow
is being the last global index (`last_pair_iff_last_index`). -/
theorem flowRecords_eq_map (fc ppf step pe : Nat) (hppf : 0 < ppf) :
    flowRecords fc ppf step pe
      = (List.range (fc * ppf)).map fun k =>
          ⟨k * step, serializedFrameLen (if k = fc * ppf - 1 ∧ 0 < pe then pe else 0)⟩ := by
  unfold flowRecords
  rw [← range_flatMap_map fc ppf]
  apply List.flatMap_congr
  intro fl hfl
  apply List.map_congr_left
  intro p hp
  have hfl2 := List.mem_range.1 hfl
  have hp2 := List.mem_range.1 hp
  show (⟨(fl * ppf + p) * step,
      serializedFrameLen (if (fl = fc - 1 ∧ p = ppf - 1) ∧ 0 < pe then pe else 0)⟩ : CaptureRecord)
    = ⟨(fl * ppf + p) * step,
      serializedFrameLen (if fl * ppf + p = fc * ppf - 1 ∧ 0 < pe then pe else 0)⟩
  rw [if_congr (and_congr_left' (last_pair_iff_last_index fc ppf fl p hfl2 hp2)) rfl rfl]

/-- The number of records emitted by the fixed-flow loop. -/
theorem flowRecords_length (fc ppf step pe : Nat) (hppf : 0 < ppf) :
    (flowRecords fc ppf step pe).length = fc * ppf := by
  rw [flowRecords_eq_map fc ppf step pe hppf]
  simp

/-- The record at global index `i` of the fixed-flow loop. -/
theorem flowRecords_getD (fc ppf step pe : Nat) (hppf : 0 < ppf) (i : Nat)
    (hi : i < fc * ppf) :
    (flowRecords fc ppf step pe).getD i ⟨0, 0⟩
      = ⟨i * step, serializedFrameLen (if i = fc * ppf - 1 ∧ 0 < pe then pe else 0)⟩ := by
  rw [flowRecords_eq_map fc ppf step pe hppf, List.getD_eq_getElem?_getD,
    List.getElem?_map, List.getElem?_range hi]
  rfl

/-- The byte length of the file written by the fixed-flow loop:
24-byte global header, 78 bytes per packet, plus the padding payload. -/
theorem pcapFileSize_flowRecords (fc ppf step pe : Nat) (hfc : 0 < fc) (hppf : 0 < ppf) :
    pcapFileSize (flowRecords fc ppf step pe) = 24 + fc * ppf * 78 + pe := by
  rw [flowRecords_eq_map fc ppf step pe hppf]
  unfold pcapFileSize
  rw [List.map_map]
  have hfun : ((fun r : CaptureRecord => 16 + r.frameLen) ∘ fun k =>
      (⟨k * step, serializedFrameLen (if k = fc * ppf - 1 ∧ 0 < pe then pe else 0)⟩ :
        CaptureRecord))
      = fun k => 78 + (if k = fc * ppf - 1 ∧ 0 < pe then pe else 0) := by
    funext k
    show 16 + serializedFrameLen (if k = fc * ppf - 1 ∧ 0 < pe then pe else 0)
      = 78 + (if k = fc * ppf - 1 ∧ 0 < pe then pe else 0)
    unfold serializedFrameLen
    omega
  rw [hfun, sum_range_const_add_last (fc * ppf) pe 78 (Nat.mul_pos hfc hppf)]
  omega

/-- When the capacity check passes and the exact-size budget is feasible,
`createPcapFileFlows` succeeds and emits the fixed-flow records with
padding `exactBytes - baseSize`. -/
theorem createPcapFileFlows_ok (fc ppf I E : Nat) (exactBytes maxSize durNs : Int)
    (hcap : ¬ 2 * I * E < fc) (h1 : 0 < exactBytes)
    (h2 : ¬ exactBytes < 24 + ((fc * ppf : Nat) : Int) * 78) :
    ∃ step, createPcapFileFlows fc ppf I E exactBytes maxSize durNs
      = Except.ok (flowRecords fc ppf step
          (exactBytes - (24 + ((fc * ppf : Nat) : Int) * 78)).toNat) := by
  apply Exists.intro
  simp only [createPcapFileFlows]
  rw [if_neg hcap, if_pos h1, if_neg h2]

/--
C1: in fixed-flow generation with `flowCount > 0`, `packetsPerFlow > 0`,
the flow count within capacity (`flowCount ≤ 2*I*E`) and the exact target
size at least the base size `24 + flowCount*packetsPerFlow*78`, the
generator emits exactly `flowCount * packetsPerFlow` packets, the persisted
file's byte length equals the exact target size, and all padding bytes ride
as payload on the single last packet (every earlier packet has a
zero-payload 62-byte frame).
-/
theorem createPcapFileFlows_exact_size (fc ppf I E : Nat)
    (exactBytes maxSizeBytes durationNs : Int)
    (hfc : 0 < fc) (hppf : 0 < ppf) (hcap : fc ≤ 2 * I * E)
    (hex : 24 + ((fc * ppf : Nat) : Int) * 78 ≤ exactBytes) :
    ∃ recs,
      createPcapFileFlows fc ppf I E exactBytes maxSizeBytes durationNs = Except.ok recs
      ∧ recs.length = fc * ppf
      ∧ (pcapFileSize recs : Int) = exactBytes
      ∧ (∀ i, i + 1 < recs.length → (recs.getD i ⟨0, 0⟩).frameLen = serializedFrameLen 0)
      ∧ (recs.getD (recs.length - 1) ⟨0, 0⟩).frameLen
          = serializedFrameLen (exactBytes - (24 + ((fc * ppf : Nat) : Int) * 78)).toNat := by
  have hN : 0 < fc * ppf := Nat.mul_pos hfc hppf
  have hcast : (0 : Int) ≤ ((fc * ppf : Nat) : Int) := Int.natCast_nonneg _
  have hpos : (0 : Int) < exactBytes := by omega
  obtain ⟨step, hok⟩ := createPcapFileFlows_ok fc ppf I E exactBytes maxSizeBytes durationNs
    (Nat.not_lt.2 hcap) hpos (not_lt.2 hex)
  refine ⟨_, hok, flowRecords_length fc ppf step _ hppf, ?_, ?_, ?_⟩
  · rw [pcapFileSize_flowRecords fc ppf step _ hfc hppf]
    push_cast
    rw [Int.toNat_of_nonneg (by omega)]
    omega
  · intro i hi
    rw [flowRecords_length fc ppf step _ hppf] at hi
    rw [flowRecords_getD fc ppf step _ hppf i (by omega)]
    show serializedFrameLen (if i = fc * ppf - 1 ∧ 0 < _ then _ else 0) = serializedFrameLen 0
    rw [if_neg (fun hc => absurd hc.1 (by omega))]
  · rw [flowRecords_length fc ppf step _ hppf,
      flowRecords_getD fc ppf step _ hppf (fc * ppf - 1) (by omega)]
    show serializedFrameLen
        (if fc * ppf - 1 = fc * ppf - 1
            ∧ 0 < (exactBytes - (24 + ((fc * ppf : Nat) : Int) * 78)).toNat
          then (exactBytes - (24 + ((fc * ppf : Nat) : Int) * 78)).toNat else 0)
      = serializedFrameLen (exactBytes - (24 + ((fc * ppf : Nat) : Int) * 78)).toNat
    by_cases hpe : 0 < (exactBytes - (24 + ((fc * ppf : Nat) : Int) * 78)).toNat
    · rw [if_pos ⟨rfl, hpe⟩]
    · rw [if_neg (fun hc => hpe hc.2)]
      have h0 : (exactBytes - (24 + ((fc * ppf : Nat) : Int) * 78)).toNat = 0 := by omega
      rw [h0]

/-- Witness for C1: one flow of one packet with one byte of padding
(`exactBytes = 103 = 24 + 78 + 1`). -/
theorem createPcapFileFlows_exact_size_witness :
    ∃ recs,
      createPcapFileFlows 1 1 1 1 103 0 0 = Except.ok recs
      ∧ recs.length = 1 * 1
      ∧ (pcapFileSize recs : Int) = 103
      ∧ (∀ i, i + 1 < recs.length → (recs.getD i ⟨0, 0⟩).frameLen = serializedFrameLen 0)
      ∧ (recs.getD (recs.length - 1) ⟨0, 0⟩).frameLen
          = serializedFrameLen ((103 : Int) - (24 + ((1 * 1 : Nat) : Int) * 78)).toNat :=
  createPcapFileFlows_exact_size 1 1 1 1 103 0 0 (by decide) (by decide) (by decide)
    (by decide)

/-- The timestamp offsets of the fixed-flow loop are non-decreasing: the
offset of packet `k` is `k * usecStep`. -/
theorem flowRecords_offsets_chain (fc ppf step pe : Nat) :
    List.Chain' (fun a b => a ≤ b)
      ((flowRecords fc ppf step pe).map CaptureRecord.offsetUsec) := by
  unfold flowRecords
  rw [List.map_flatMap]
  have h1 : ((List.range fc).flatMap fun fl =>
      ((List.range ppf).map fun p =>
        let packetIdx := fl * ppf + p
        let lastPacket := fl = fc - 1 ∧ p = ppf - 1
        let payloadLen := if lastPacket ∧ 0 < pe then pe else 0
        (⟨packetIdx * step, serializedFrameLen payloadLen⟩ : CaptureRecord)).map
          CaptureRecord.offsetUsec)
      = (List.range fc).flatMap fun fl =>
          (List.range ppf).map fun p => (fl * ppf + p) * step := by
    apply List.flatMap_congr
    intro fl _
    rw [List.map_map]
    rfl
  rw [h1, range_flatMap_map fc ppf fun k => k * step]
  apply List.Pairwise.chain'
  exact List.Pairwise.map _ (fun a b hab => Nat.mul_le_mul_right step (Nat.le_of_lt hab))
    (List.pairwise_lt_range (fc * ppf))

/-- The value of the timestamp cursor, in microseconds, is preserved by the
sub-second carry and grows by the drawn gap. -/
theorem nextCursor_value (sec off delta : Nat) :
    (nextCursor sec off delta).1 * 1000000 + (nextCursor sec off delta).2
      = sec * 1000000 + off + delta := by
  unfold nextCursor
  dsimp only
  split_ifs with hc
  · dsimp only
    omega
  · dsimp only
    omega

/-- The random-mode timestamp sequence is non-decreasing for every draw
sequence and every starting cursor. -/
theorem cursorTimestamps_chain (deltas : List Nat) : ∀ sec off,
    List.Chain' (fun a b => a ≤ b) (cursorTimestamps sec off deltas) := by
  induction deltas with
  | nil =>
    intro sec off
    simp [cursorTimestamps]
  | cons d ds ih =>
    intro sec off
    rcases ds with _ | ⟨d2, ds2⟩
    · simp [cursorTimestamps]
    · rw [cursorTimestamps, List.chain'_cons']
      refine ⟨?_, ih _ _⟩
      intro y hy
      rw [cursorTimestamps] at hy
      simp only [List.head?_cons, Option.mem_def, Option.some.injEq] at hy
      subst hy
      have hv := nextCursor_value sec off d
      omega

/--
C8: within one synthesized file the written record timestamps are
non-decreasing in both modes: every successful fixed-flow emission
(`createPcapFileFlows`) yields records with non-decreasing timestamp
offsets, and the random-mode second/sub-second cursor of `createPcapFile`
yields non-decreasing timestamps for every sequence of drawn inter-packet
gaps, the sub-second carry included.
-/
theorem capture_timestamps_monotone (fc ppf I E : Nat)
    (exactBytes maxSize durNs : Int) (recs : List CaptureRecord)
    (hok : createPcapFileFlows fc ppf I E exactBytes maxSize durNs = Except.ok recs) :
    List.Chain' (fun a b => a ≤ b) (recs.map CaptureRecord.offsetUsec)
    ∧ ∀ startSec deltas,
        List.Chain' (fun a b => a ≤ b) (cursorTimestamps startSec 0 deltas) := by
  constructor
  · have hex : ∃ step pe, recs = flowRecords fc ppf step pe := by
      simp only [createPcapFileFlows] at hok
      split at hok
      · exact absurd hok (by simp)
      · split at hok
        · exact absurd hok (by simp)
        · rename_i payloadExtra heq
          exact ⟨_, _, (Except.ok.injEq .. ▸ hok :
            flowRecords fc ppf _ payloadExtra.toNat = recs).symm⟩
    obtain ⟨step, pe, rfl⟩ := hex
    exact flowRecords_offsets_chain fc ppf step pe
  · intro startSec deltas
    exact cursorTimestamps_chain deltas startSec 0

/-- Witness for C8: the single-record capture produced by
`createPcapFileFlows 1 1 1 1 102 0 0`. -/
theorem capture_timestamps_monotone_witness :
    List.Chain' (fun a b => a ≤ b)
      (([⟨0, 62⟩] : List CaptureRecord).map CaptureRecord.offsetUsec)
    ∧ ∀ startSec deltas,
        List.Chain' (fun a b => a ≤ b) (cursorTimestamps startSec 0 deltas) :=
  capture_timestamps_monotone 1 1 1 1 102 0 0 [⟨0, 62⟩] (by with_unfolding_all rfl)

end Genflow
